import Mathlib

/-!
Verification development for the content-type definitions builder
(`src/cf-definitions-builder.ts`).

The builder keeps an in-memory project of generated source modules.  Each
module is a list of import requirements followed by a body of declarations
(interfaces, type aliases, raw statements, export declarations).  The
embedding below translates the builder's operations (`appendType`, `write`,
`addIndexFile`, `mergeFile`, `toString`) into explicit state passing over
that project value.

Helper functions of the repository that live outside the builder file
(`moduleName`, `moduleFieldsName`, `moduleTypeIdName`, `renderUnionType`,
`renderGenericType`) and the behaviour of the external ts-morph library
(`organizeImports`, structure traversal) are modelled from the spec; each
such definition carries a doc comment saying so.
-/

namespace CFBuilder

/-- Boolean lexicographic order on character lists (by code point), used to
give the import-normalisation pass a deterministic order. -/
def lexLe : List Char → List Char → Bool
  | [], _ => true
  | _ :: _, [] => false
  | a :: as, b :: bs =>
    if a.val.toNat < b.val.toNat then true
    else if b.val.toNat < a.val.toNat then false
    else lexLe as bs

/-- Boolean order on strings derived from `lexLe`. -/
def strLe (a b : String) : Bool := lexLe a.toList b.toList

/-- Does `pat` occur as a contiguous sublist of the second argument?
Used to model the substring tests of the source (`String.prototype.includes`)
and the usage test of the import-normalisation pass. -/
def hasSubstr (pat : List Char) : List Char → Bool
  | [] => pat.isEmpty
  | c :: cs => pat.isPrefixOf (c :: cs) || hasSubstr pat cs

/-- `containsStr s pat` models the source's `s.includes(pat)`. -/
def containsStr (s pat : String) : Bool := hasSubstr pat.toList s.toList

/-- Modelled from the spec (§4.1, `utils.ts` is not part of the given
sources): PascalCase over dash-separated segments.  The boolean argument is
true exactly when the next character starts a segment and must be
capitalised. -/
def pascalGo : Bool → List Char → List Char
  | _, [] => []
  | true, c :: cs => if c = '-' then pascalGo true cs else c.toUpper :: pascalGo false cs
  | false, c :: cs => if c = '-' then pascalGo true cs else c :: pascalGo false cs

/-- Modelled from the spec (§4.1): `moduleName(id)` is the PascalCase entity
type name derived from the raw identifier. -/
def moduleName (id : String) : String := ⟨pascalGo true id.toList⟩

/-- Modelled from the spec (§4.1): the fields-container interface name is the
entity name plus a suffix denoting "fields". -/
def moduleFieldsName (id : String) : String := moduleName id ++ "Fields"

/-- Helper for `moduleTypeIdName`: insert an underscore before each
uppercase character (except the first character) and uppercase everything. -/
def snakeGo : Bool → List Char → List Char
  | _, [] => []
  | first, c :: cs =>
    if c.isUpper && !first then '_' :: c :: snakeGo false cs
    else c.toUpper :: snakeGo false cs

/-- Modelled from the spec (§4.1): SCREAMING_SNAKE name for the exported
type-id constant. -/
def moduleTypeIdName (name : String) : String := (⟨snakeGo true name.toList⟩ : String) ++ "_TYPE_ID"

/-- Modelled from the spec (`renderUnionType` is not part of the given
sources): a union type expression joining its members with a pipe. -/
def renderUnionType (names : List String) : String := String.intercalate " | " names

/-- Modelled from the spec (`renderGenericType` is not part of the given
sources): a generic instantiation `name<params>`. -/
def renderGenericType (name params : String) : String := name ++ "<" ++ params ++ ">"

/-- The slice of the contentful `Field` shape the builder reads: the id, the
required and omitted flags, plus an opaque payload consumed only by the
external rendering collaborators. -/
structure Field where
  id : String
  required : Bool
  omitted : Bool
  fieldType : String
deriving DecidableEq, Repr

/-- The `sys` part of a content-type descriptor. -/
structure CFSys where
  id : String
  type : String
deriving DecidableEq, Repr

/-- `CFContentType` from the source: a content-type descriptor. -/
structure CFContentType where
  name : String
  id : String
  sys : CFSys
  fields : List Field
deriving DecidableEq, Repr

/-- One import requirement of a module (`ImportDeclarationStructure`). -/
structure ImportDecl where
  moduleSpecifier : String
  namespaceImport : Option String := none
  namedImports : List String := []
  isTypeOnly : Bool := false
deriving DecidableEq, Repr

/-- One property signature of a generated interface. -/
structure PropertySig where
  name : String
  hasQuestionToken : Bool
  type : String
deriving DecidableEq, Repr

/-- A top-level declaration of a generated module.  `statement` is raw text
(the spec's `Statement{text}` variant, used for the exported type-id
constant); `other` stands for any further structure kind the external
library could present to the merge, which the merge does not understand. -/
inductive Decl where
  | interface (name : String) (isExported : Bool) (props : List PropertySig)
  | typeAlias (name : String) (isExported : Bool) (type : String)
  | statement (text : String)
  | exportDecl (isTypeOnly : Bool) (namedExports : List String) (moduleSpecifier : Option String)
  | other (kindName : String)
deriving DecidableEq, Repr

/-- A generated source module: base name (without extension), import
requirements, and body declarations, in order. -/
structure SourceFile where
  name : String
  imports : List ImportDecl
  body : List Decl
deriving DecidableEq, Repr

/-- The in-memory project: the registered modules in insertion order. -/
abbrev Project := List SourceFile

/-- Modelled from the spec (the serialized text of a module is produced by
the external library): render one import requirement. -/
def renderImportDecl (i : ImportDecl) : String :=
  "im" ++ "port " ++ (if i.isTypeOnly then "type " else "") ++
    (match i.namespaceImport with
      | some ns => "* as " ++ ns
      | none => "\x7b " ++ String.intercalate ", " i.namedImports ++ " \x7d") ++
    " from \"" ++ i.moduleSpecifier ++ "\";\n"

/-- Render one property signature of an interface. -/
def renderPropertySig (p : PropertySig) : String :=
  "    " ++ p.name ++ (if p.hasQuestionToken then "?" else "") ++ ": " ++ p.type ++ ";\n"

/-- Modelled from the spec: render one body declaration. -/
def renderDecl : Decl → String
  | .interface name isExported props =>
    (if isExported then "export " else "") ++ "interface " ++ name ++ " \x7b\n" ++
      String.join (props.map renderPropertySig) ++ "\x7d\n"
  | .typeAlias name isExported type =>
    (if isExported then "export " else "") ++ "type " ++ name ++ " = " ++ type ++ ";\n"
  | .statement text => text ++ "\n"
  | .exportDecl isTypeOnly namedExports moduleSpecifier =>
    "export " ++ (if isTypeOnly then "type " else "") ++
      "\x7b " ++ String.intercalate ", " namedExports ++ " \x7d" ++
      (match moduleSpecifier with
        | some sp => " from \"" ++ sp ++ "\""
        | none => "") ++ ";\n"
  | .other kindName => "/* " ++ kindName ++ " */\n"

/-- The rendered text of a module's body (everything below the imports). -/
def renderBody (body : List Decl) : String := String.join (body.map renderDecl)

/-- The full rendered text of a module (`file.getFullText()`). -/
def renderSourceFile (f : SourceFile) : String :=
  String.join (f.imports.map renderImportDecl) ++ renderBody f.body

/-- Insertion step of the deterministic sort used by import normalisation. -/
def insertLe {α : Type} (le : α → α → Bool) (a : α) : List α → List α
  | [] => [a]
  | b :: bs => if le a b then a :: b :: bs else b :: insertLe le a bs

/-- Insertion sort by a boolean comparator. -/
def sortLe {α : Type} (le : α → α → Bool) : List α → List α
  | [] => []
  | a :: as => insertLe le a (sortLe le as)

/-- Merge a new import requirement into an accumulated list: a requirement
with the same specifier and the same type-only kind is combined (the
named import lists union, first namespace import wins); otherwise the
requirement is appended.  Modelled from the spec (§4.3). -/
def mergeImportInto (acc : List ImportDecl) (i : ImportDecl) : List ImportDecl :=
  if acc.any fun j => j.moduleSpecifier == i.moduleSpecifier && j.isTypeOnly == i.isTypeOnly then
    acc.map fun j =>
      if j.moduleSpecifier == i.moduleSpecifier && j.isTypeOnly == i.isTypeOnly then
        { j with
          namespaceImport := (match j.namespaceImport with
            | some ns => some ns
            | none => i.namespaceImport),
          namedImports := j.namedImports ++ i.namedImports.filter (fun n => !(j.namedImports.contains n)) }
      else j
  else acc ++ [i]

/-- Collapse duplicate import requirements (same specifier and kind). -/
def mergeDupImports (imports : List ImportDecl) : List ImportDecl :=
  imports.foldl mergeImportInto []

/-- Drop the unused bindings of one import requirement against the module's
body text; `none` when nothing of the requirement is used.  Modelled from
the spec (§4.2 step 6: "drop unused, merge duplicates"). -/
def pruneImport (bodyText : String) (i : ImportDecl) : Option ImportDecl :=
  let names := i.namedImports.filter fun n => containsStr bodyText n
  let ns := match i.namespaceImport with
    | some n => if containsStr bodyText n then some n else none
    | none => none
  if names.isEmpty && ns.isNone then none
  else some { i with namedImports := names, namespaceImport := ns }

/-- Modelled from the spec (§4.2 step 6; the source delegates to the
external library's `organizeImports`): normalise a module's import list by
merging duplicate requirements, dropping requirements none of whose
bindings occur in the module's body text, and ordering the result
deterministically by specifier.  The body is untouched. -/
def organizeImports (f : SourceFile) : SourceFile :=
  let bodyText := renderBody f.body
  let pruned := (mergeDupImports f.imports).filterMap (pruneImport bodyText)
  let sorted := sortLe (fun a b => strLe a.moduleSpecifier b.moduleSpecifier) pruned
  { f with imports := sorted }

/-- The error kinds the builder can raise: `invalidDescriptor` for
`appendType`'s descriptor check, `unsupportedKind` for the merge's
default branch (`Unhandled node type`). -/
inductive BuildError where
  | invalidDescriptor
  | unsupportedKind (kindName : String)
deriving DecidableEq, Repr

/-- `removeSourceFile` on every module of the given base name.  On
reachable projects module names are unique, so this coincides with the
source's removal of a single found file. -/
def removeFileByName (n : String) (p : Project) : Project :=
  p.filter fun f => f.name != n

/-- `addFile` (source lines 77-83): `createSourceFile` with
`overwrite: true` — any existing module of the same name is removed and the
new module registered at the end of the project. -/
def addFileOverwrite (f : SourceFile) (p : Project) : Project :=
  removeFileByName f.name p ++ [f]

/-- Append an import requirement to a module (`addImportDeclaration`;
ts-morph places every import in the imports section, in call order). -/
def addImport (f : SourceFile) (i : ImportDecl) : SourceFile :=
  { f with imports := f.imports ++ [i] }

/-- `addDefaultImports` (source lines 220-229): the namespaced import of
the rendering namespace and the named import of the entry-wrapper type. -/
def addDefaultImports (f : SourceFile) : SourceFile :=
  addImport
    (addImport f { moduleSpecifier := "contentful", namespaceImport := some "Contentful" })
    { moduleSpecifier := "@src/types/contentful/static", namedImports := ["CMSEntry"] }

/-- The external rendering collaborators (`renderProp` from
`./renderer/cf-render-prop`, `propertyImports` from
`./cf-property-imports`): pure black boxes the builder is parameterised
over. -/
structure Renderers where
  renderProp : Field → String
  propertyImports : Field → String → List ImportDecl

/-- Update every interface of the given name in a body (the source holds a
direct reference to the one interface declaration node; on the bodies the
builder produces the name occurs once). -/
def mapInterface (iname : String) (g : List PropertySig → List PropertySig) : List Decl → List Decl
  | [] => []
  | .interface n e props :: rest =>
    if n = iname then .interface n e (g props) :: mapInterface iname g rest
    else .interface n e props :: mapInterface iname g rest
  | d :: rest => d :: mapInterface iname g rest

/-- `addProperty` (source lines 144-176): render the field's type, append
the property signature (optional iff `field.omitted || !field.required`),
then the conditional imports, the unconditional rich-text namespace import
and the external per-field imports. -/
def addProperty (R : Renderers) (iname : String) (f : SourceFile) (field : Field) : SourceFile :=
  let type := R.renderProp field
  let newBody := mapInterface iname
    (fun props => props ++ [⟨field.id, field.omitted || !field.required, type⟩]) f.body
  let f1 := { f with body := newBody }
  let f2 := if containsStr type "Contentful." then
      addImport f1 { moduleSpecifier := "contentful", namespaceImport := some "Contentful" }
    else f1
  let f3 := if containsStr type "EntryLink" then
      addImport f2 { moduleSpecifier := "@src/types/contentful/static", namedImports := ["EntryLink"] }
    else f2
  let f4 := addImport f3 { moduleSpecifier := "@contentful/rich-text-types", namespaceImport := some "CFRichTextTypes" }
  { f4 with imports := f4.imports ++ R.propertyImports field f4.name }

/-- `addEntryTypeAlias` (source lines 134-142): the exported type-id
constant statement and the exported entry type alias. -/
def addEntryTypeAlias (f : SourceFile) (aliasName entryType : String) : SourceFile :=
  let typeIdName := moduleTypeIdName f.name
  { f with body := f.body ++
      [.statement ("export const " ++ typeIdName ++ " = \x27" ++ aliasName ++ "\x27;"),
       .typeAlias (moduleName aliasName) true
         (renderGenericType "CMSEntry" ("typeof " ++ typeIdName ++ ", " ++ entryType))] }

/-- The module `appendType` synthesises for one descriptor: the two
default imports, the (initially empty) fields interface filled per field, the
type-id constant and entry alias, then import normalisation. -/
def mkSourceFile (R : Renderers) (m : CFContentType) : SourceFile :=
  let f0 : SourceFile := ⟨moduleName m.sys.id, [], []⟩
  let f1 := addDefaultImports f0
  let f2 := { f1 with body := f1.body ++ [.interface (moduleFieldsName m.sys.id) true []] }
  let f3 := m.fields.foldl (addProperty R (moduleFieldsName m.sys.id)) f2
  let f4 := addEntryTypeAlias f3 m.sys.id (moduleFieldsName m.sys.id)
  organizeImports f4

/-- `appendType` (source lines 43-63): reject a descriptor whose
`sys.type` is not `ContentType` before touching the project; otherwise
register the synthesised module, overwriting any module of the same name. -/
def appendType (R : Renderers) (m : CFContentType) (p : Project) : Except BuildError Project :=
  if m.sys.type ≠ "ContentType" then .error .invalidDescriptor
  else .ok (addFileOverwrite (mkSourceFile R m) p)

/-- A caller that catches the synthesis error keeps its previous project
(the spec's "aborts only that entity"). -/
def tryAppendType (R : Renderers) (m : CFContentType) (p : Project) : Project :=
  match appendType R m p with
  | .ok q => q
  | .error _ => p

/-- Build a project by appending every descriptor of a list in order. -/
def buildAll (R : Renderers) (D : List CFContentType) : Project :=
  D.foldl (fun p d => tryAppendType R d p) []

/-- The two export declarations and the type-only import `addIndexFile`
registers for one entity base name (source lines 111-126), as a body
fragment and an import. -/
def indexEntryImport (fileName : String) : ImportDecl :=
  { moduleSpecifier := "./" ++ fileName
    namedImports := [moduleName fileName, moduleFieldsName fileName]
    isTypeOnly := true }

/-- The body fragment per entity base name of the index module. -/
def indexEntryExports (fileName : String) : List Decl :=
  [.exportDecl true [moduleName fileName, moduleFieldsName fileName] none,
   .exportDecl false [moduleTypeIdName fileName] (some ("./" ++ fileName))]

/-- The freshly built index module before import normalisation, given the
enumerated entity base names: the management-entry import, then — what the
source's `forEach` loop over the base names accumulates — a type-only
entity import with its export pair and type-id re-export per name, then the two
union type aliases. -/
def indexSourceFile (files : List String) : SourceFile :=
  ⟨"index",
   { moduleSpecifier := "@src/types/contentful/static", namedImports := ["CMSManagementEntry"] } ::
     files.map indexEntryImport,
   files.flatMap indexEntryExports ++
     [.typeAlias "CMSEntries" true (renderUnionType (files.map moduleName)),
      .typeAlias "CMSManagementEntries" true
        (renderUnionType ((files.map moduleName).map (fun n => renderGenericType "CMSManagementEntry" n)))]⟩

/-- `addIndexFile` (source lines 89-132): remove any existing `index`
module, enumerate the remaining module base names, and build the index
module afresh, then normalise its imports.  The rebuilt index is
registered at the end of the project. -/
def addIndexFile (p : Project) : Project :=
  removeFileByName "index" p ++ [organizeImports (indexSourceFile
    ((removeFileByName "index" p).map (fun f => f.name)))]

/-- The base names of the non-index modules of a project (the entity
inventory the index aggregator enumerates). -/
def entityNames (p : Project) : List String :=
  (p.filter fun f => f.name != "index").map (fun f => f.name)

/-- The body of the `CMSEntries` type alias of the `index` module, when
both exist. -/
def cmsEntriesOf (p : Project) : Option String :=
  match p.find? (fun f => f.name == "index") with
  | none => none
  | some f => f.body.findSome? fun d =>
      match d with
      | .typeAlias n _ t => if n = "CMSEntries" then some t else none
      | _ => none

/-- `write` (source lines 65-73): rebuild the index, then write every
module's full text to `<dir>/<name>.ts`.  The model returns the rebuilt
project together with the (path, text) pairs handed to the filesystem. -/
def writeOutputs (p : Project) : Project × List (String × String) :=
  let p1 := addIndexFile p
  (p1, p1.map fun f => (f.name ++ ".ts", renderSourceFile f))

/-- The file names `write` produces. -/
def writeNames (p : Project) : List String :=
  (writeOutputs p).2.map (fun x => x.1)

/-- One child of the structure traversal the merge performs over a module
(`forEachStructureChild(sourceFile.getStructure(), ...)`). -/
inductive StructChild where
  | importChild (i : ImportDecl)
  | declChild (d : Decl)
deriving DecidableEq, Repr

/-- Is a body declaration a structure the external traversal visits?  A
raw-text statement is plain text, not a structure. -/
def isStructureDecl : Decl → Bool
  | .statement _ => false
  | _ => true

/-- Is a body declaration one of the two shapes the merge inlines? -/
def isInlineDecl : Decl → Bool
  | .interface _ _ _ => true
  | .typeAlias _ _ _ => true
  | _ => false

/-- The declared name of an interface or type alias. -/
def declNameOf : Decl → Option String
  | .interface n _ _ => some n
  | .typeAlias n _ _ => some n
  | _ => none

/-- Is a body declaration one of the shapes synthesis produces? -/
def isSupportedDecl : Decl → Bool
  | .interface _ _ _ => true
  | .typeAlias _ _ _ => true
  | .statement _ => true
  | _ => false

/-- Modelled from the spec (the traversal is the external library's): the
top-level structures of a module are its import requirements followed by
its body declarations, except raw-text statements — the spec's
`Statement{text}` variant (§3, used for the type-id constant) is plain
text, not a structure, so the traversal does not visit it. -/
def structureChildren (f : SourceFile) : List StructChild :=
  f.imports.map .importChild ++ (f.body.filter isStructureDecl).map .declChild

/-- The accumulator of the merge walk: pending imports, names of the
inlined interfaces and type aliases, and the merged body so far. -/
structure MergeAcc where
  pending : List ImportDecl
  types : List String
  body : List Decl
deriving DecidableEq, Repr

/-- One step of the merge walk (the `switch` of source lines 188-202):
the import requirements are collected, interfaces and type aliases are inlined,
their
names recorded, anything else is `Unhandled node type`. -/
def mergeChild (acc : MergeAcc) : StructChild → Except BuildError MergeAcc
  | .importChild i => .ok { acc with pending := acc.pending ++ [i] }
  | .declChild (.interface n e props) =>
    .ok { acc with types := acc.types ++ [n], body := acc.body ++ [.interface n e props] }
  | .declChild (.typeAlias n e t) =>
    .ok { acc with types := acc.types ++ [n], body := acc.body ++ [.typeAlias n e t] }
  | .declChild (.statement _) => .error (.unsupportedKind "Statement")
  | .declChild (.exportDecl _ _ _) => .error (.unsupportedKind "ExportDeclaration")
  | .declChild (.other k) => .error (.unsupportedKind k)

/-- Walk all structure children of one module. -/
def mergeChildren (acc : MergeAcc) : List StructChild → Except BuildError MergeAcc
  | [] => .ok acc
  | c :: cs =>
    match mergeChild acc c with
    | .error e => .error e
    | .ok acc1 => mergeChildren acc1 cs

/-- Walk a list of modules in project order. -/
def mergeWalk (acc : MergeAcc) : List SourceFile → Except BuildError MergeAcc
  | [] => .ok acc
  | f :: fs =>
    match mergeChildren acc (structureChildren f) with
    | .error e => .error e
    | .ok acc1 => mergeWalk acc1 fs

/-- `mergeFile` without the project mutation (source lines 178-218): walk
every module other than the merge module itself, then add every pending
requirement whose specifier minus its first two characters (`./`) does not name
an inlined declaration, and normalise the imports of the result. -/
def mergeModule (mergeFileName : String) (p : Project) : Except BuildError SourceFile :=
  match mergeWalk ⟨[], [], []⟩ (p.filter fun f => f.name != mergeFileName) with
  | .error e => .error e
  | .ok acc =>
    let kept := acc.pending.filter fun i => !(acc.types.contains (i.moduleSpecifier.drop 2))
    .ok (organizeImports ⟨mergeFileName, kept, acc.body⟩)

/-- The merged module before import normalisation, for stating what the
merge adds to it (same walk as `mergeModule`). -/
def mergeModuleRaw (mergeFileName : String) (p : Project) : Except BuildError SourceFile :=
  match mergeWalk ⟨[], [], []⟩ (p.filter fun f => f.name != mergeFileName) with
  | .error e => .error e
  | .ok acc =>
    let kept := acc.pending.filter fun i => !(acc.types.contains (i.moduleSpecifier.drop 2))
    .ok ⟨mergeFileName, kept, acc.body⟩

/-- `toString` (source line 75): `mergeFile().getFullText()`.  `mergeFile`
registers the merged module in the project (`addFile` with overwrite), so
on success the model returns the rendered text together with the mutated
project. -/
def toStringB (p : Project) : Except BuildError (String × Project) :=
  match mergeModule "ContentTypes" p with
  | .error e => .error e
  | .ok m => .ok (renderSourceFile m, removeFileByName "ContentTypes" p ++ [m])

/-- A concrete instance of the external rendering collaborators, for
evaluating the development on concrete descriptors. -/
def R0 : Renderers := ⟨fun f => f.fieldType, fun _ _ => []⟩

/-- A concrete text field. -/
def titleField : Field := ⟨"title", true, false, "Contentful.EntryFields.Text"⟩

/-- A concrete `post` descriptor (the spec's §8 scenario). -/
def postCT : CFContentType := ⟨"Post", "post", ⟨"post", "ContentType"⟩, [titleField]⟩

/-- A concrete `author` descriptor. -/
def authorCT : CFContentType :=
  ⟨"Author", "author", ⟨"author", "ContentType"⟩, [⟨"name", false, false, "Contentful.EntryFields.Symbol"⟩]⟩

/-- A descriptor whose `sys.type` is `Asset` (the spec's §8 error
scenario). -/
def assetCT : CFContentType := ⟨"Asset", "asset", ⟨"asset", "Asset"⟩, []⟩

/-- A descriptor whose raw identifier is `postFields`: its entry type name
collides with the fields-interface name derived from `post`. -/
def postFieldsCT : CFContentType := ⟨"PostFields", "postFields", ⟨"postFields", "ContentType"⟩, []⟩

/-- A descriptor whose raw identifier is `contentTypes`: its module is
registered under the merge module's own name. -/
def contentTypesCT : CFContentType :=
  ⟨"ContentTypes", "contentTypes", ⟨"contentTypes", "ContentType"⟩, []⟩

/-- The property signature `addProperty` generates for one field. -/
def mkProp (R : Renderers) (field : Field) : PropertySig :=
  ⟨field.id, field.omitted || !field.required, R.renderProp field⟩

/-- The module name a descriptor is registered under. -/
def keyOf (d : CFContentType) : String := moduleName d.sys.id

/-- The descriptors that survive the builder's overwrite semantics: for
each module name the last descriptor of the list wins, listed in the
order the overwriting `addFile` leaves behind. -/
def lastWins (D : List CFContentType) : List CFContentType :=
  D.foldl (fun acc d => acc.filter (fun e => keyOf e != keyOf d) ++ [d]) []

/-- The interface and type-alias declaration names of a module. -/
def declNamesOfFile (f : SourceFile) : List String :=
  f.body.filterMap declNameOf

/-- The declarations of a module the merge inlines (its interfaces and
type aliases, in order). -/
def inlinedDecls (f : SourceFile) : List Decl :=
  f.body.filter isInlineDecl

/-- A structure child the merge's `switch` understands. -/
def supportedChild : StructChild → Bool
  | .importChild _ => true
  | .declChild (.interface _ _ _) => true
  | .declChild (.typeAlias _ _ _) => true
  | _ => false

/-- A module all of whose body declarations are the shapes synthesis
produces (interfaces, type aliases and raw statements). -/
def supportedFile (f : SourceFile) : Bool :=
  f.body.all isSupportedDecl

/-- The pending import list the merge collects: every import requirement
of every module other than the merge module, in walk order. -/
def pendingImportsOf (mergeFileName : String) (p : Project) : List ImportDecl :=
  (p.filter fun f => f.name != mergeFileName).flatMap (fun f => f.imports)

/-- The locally-defined-names set of the merge: every interface and type
alias name of every module other than the merge module. -/
def inlinedNamesOf (mergeFileName : String) (p : Project) : List String :=
  (p.filter fun f => f.name != mergeFileName).flatMap declNamesOfFile

/-- The lowercase letters. -/
def lowerAlphabet : List Char := "abcdefghijklmnopqrstuvwxyz".toList

/-- The expected identifier alphabet of the naming convention (spec §4.1):
a raw identifier starting with a lowercase letter and containing no dash,
so that `moduleName` is injective and idempotent on it. -/
def expectedId (s : String) : Bool :=
  match s.toList with
  | [] => false
  | c :: cs => lowerAlphabet.contains c && !((c :: cs).contains '-')

/-- The text of the exported type-id constant of a descriptor's module. -/
def entryConstText (m : CFContentType) : String :=
  "export const " ++ moduleTypeIdName (moduleName m.sys.id) ++ " = \x27" ++ m.sys.id ++ "\x27;"

/-- The body of the exported entry type alias of a descriptor's module. -/
def entryAliasType (m : CFContentType) : String :=
  renderGenericType "CMSEntry"
    ("typeof " ++ moduleTypeIdName (moduleName m.sys.id) ++ ", " ++ moduleFieldsName m.sys.id)

/-- The body every synthesised module ends up with: the fields interface,
the type-id constant statement and the entry type alias. -/
def entryBody (R : Renderers) (m : CFContentType) : List Decl :=
  [.interface (moduleFieldsName m.sys.id) true (m.fields.map (mkProp R)),
   .statement (entryConstText m),
   .typeAlias (moduleName m.sys.id) true (entryAliasType m)]

/-- The import requirement a structure child carries, if it is one. -/
def childImportOf : StructChild → Option ImportDecl
  | .importChild i => some i
  | _ => none

/-- The declared name a structure child contributes to the merge's
locally-defined-names set, if any. -/
def childNameOf : StructChild → Option String
  | .declChild d => declNameOf d
  | _ => none

/-- A run of the merged-text renderer on the one-descriptor demo project,
used to exhibit the mutation `toString` performs. -/
def demoMergedRun : Except BuildError (String × Project) := toStringB (buildAll R0 [postCT])

/-- The project state after the demo `toString` call. -/
def demoMergedProject : Project :=
  match demoMergedRun with
  | .ok (_, q) => q
  | .error _ => []

/-- The merged text the demo `toString` call returns. -/
def demoMergedText : String :=
  match demoMergedRun with
  | .ok (s, _) => s
  | .error _ => ""

/-- A module importing the name `Beta` from the generated module
`./Beta`. -/
def alphaFile : SourceFile :=
  ⟨"Alpha", [⟨"./Beta", none, ["Beta"], false⟩], [.interface "Alpha" true []]⟩

/-- A module defining the type alias `Beta`. -/
def betaFile : SourceFile := ⟨"Beta", [], [.typeAlias "Beta" true "string"]⟩

/-- The merge of the two demo modules above. -/
def demoMergePair : Except BuildError SourceFile :=
  mergeModule "ContentTypes" [alphaFile, betaFile]

/-- The merged module of the demo pair. -/
def demoMergedPairModule : SourceFile :=
  match demoMergePair with
  | .ok m => m
  | .error _ => ⟨"", [], []⟩

/-- The property list of the first interface of a module's body (the
fields-container interface of a synthesised module). -/
def interfacePropsOf (f : SourceFile) : List PropertySig :=
  (f.body.findSome? fun d =>
    match d with
    | .interface _ _ ps => some ps
    | _ => none).getD []

/-- The rendered text of the module of the given base name, when present. -/
def moduleTextOf (n : String) (p : Project) : Option String :=
  (p.find? fun f => f.name == n).map renderSourceFile

/-- The module registered under the given base name, when present. -/
def moduleOf (n : String) (p : Project) : Option SourceFile :=
  p.find? fun f => f.name == n

theorem organizeImports_name (f : SourceFile) : (organizeImports f).name = f.name := rfl

theorem organizeImports_body (f : SourceFile) : (organizeImports f).body = f.body := rfl

theorem addImport_name (f : SourceFile) (i : ImportDecl) : (addImport f i).name = f.name := rfl

theorem addImport_body (f : SourceFile) (i : ImportDecl) : (addImport f i).body = f.body := rfl

theorem addProperty_name (R : Renderers) (iname : String) (f : SourceFile) (field : Field) :
    (addProperty R iname f field).name = f.name := by
  simp only [addProperty, addImport]
  split <;> split <;> rfl

theorem addProperty_body (R : Renderers) (iname : String) (f : SourceFile) (field : Field) :
    (addProperty R iname f field).body =
      mapInterface iname (fun props => props ++ [mkProp R field]) f.body := by
  simp only [addProperty, addImport, mkProp]
  split <;> split <;> rfl

theorem mapInterface_singleton (iname : String) (e : Bool) (ps : List PropertySig)
    (g : List PropertySig → List PropertySig) :
    mapInterface iname g [.interface iname e ps] = [.interface iname e (g ps)] := by
  simp [mapInterface]

theorem foldl_addProperty_name (R : Renderers) (iname : String) (fields : List Field) :
    ∀ f : SourceFile, (fields.foldl (addProperty R iname) f).name = f.name := by
  induction fields with
  | nil => intro f; rfl
  | cons fld rest ih =>
    intro f
    rw [List.foldl_cons, ih, addProperty_name]

theorem foldl_addProperty_body (R : Renderers) (iname : String) (fields : List Field) :
    ∀ (f : SourceFile) (e : Bool) (ps : List PropertySig),
      f.body = [.interface iname e ps] →
      (fields.foldl (addProperty R iname) f).body =
        [.interface iname e (ps ++ fields.map (mkProp R))] := by
  induction fields with
  | nil => intro f e ps h; simpa using h
  | cons fld rest ih =>
    intro f e ps h
    rw [List.foldl_cons]
    have h1 : (addProperty R iname f fld).body = [.interface iname e (ps ++ [mkProp R fld])] := by
      rw [addProperty_body, h, mapInterface_singleton]
    rw [ih _ e (ps ++ [mkProp R fld]) h1]
    simp

theorem mkSourceFile_name (R : Renderers) (m : CFContentType) :
    (mkSourceFile R m).name = moduleName m.sys.id := by
  simp only [mkSourceFile, addEntryTypeAlias, organizeImports]
  rw [foldl_addProperty_name]
  rfl

theorem mkSourceFile_body (R : Renderers) (m : CFContentType) :
    (mkSourceFile R m).body = entryBody R m := by
  have hname : ((addDefaultImports ⟨moduleName m.sys.id, [], []⟩).body ++
      [Decl.interface (moduleFieldsName m.sys.id) true []]) = [.interface (moduleFieldsName m.sys.id) true []] := rfl
  simp only [mkSourceFile, organizeImports_body, addEntryTypeAlias, entryBody, entryConstText, entryAliasType]
  rw [foldl_addProperty_name]
  have hfold := foldl_addProperty_body R (moduleFieldsName m.sys.id) m.fields
    { addDefaultImports ⟨moduleName m.sys.id, [], []⟩ with
      body := (addDefaultImports ⟨moduleName m.sys.id, [], []⟩).body ++ [.interface (moduleFieldsName m.sys.id) true []] }
    true [] rfl
  simp only [hfold]
  rfl

theorem appendType_valid (R : Renderers) (m : CFContentType) (p : Project)
    (h : m.sys.type = "ContentType") :
    appendType R m p = .ok (removeFileByName (moduleName m.sys.id) p ++ [mkSourceFile R m]) := by
  simp [appendType, h, addFileOverwrite, mkSourceFile_name]

theorem tryAppendType_valid (R : Renderers) (m : CFContentType) (p : Project)
    (h : m.sys.type = "ContentType") :
    tryAppendType R m p = removeFileByName (moduleName m.sys.id) p ++ [mkSourceFile R m] := by
  simp [tryAppendType, appendType_valid R m p h]

theorem removeFileByName_idem (n : String) (p : Project) :
    removeFileByName n (removeFileByName n p) = removeFileByName n p := by
  simp [removeFileByName, List.filter_filter]

theorem removeFileByName_append_self (n : String) (p : Project) (f : SourceFile)
    (h : f.name = n) :
    removeFileByName n (p ++ [f]) = removeFileByName n p := by
  simp [removeFileByName, List.filter_append, h]

theorem removeFileByName_append_other (n : String) (p : Project) (f : SourceFile)
    (h : f.name ≠ n) :
    removeFileByName n (p ++ [f]) = removeFileByName n p ++ [f] := by
  simp [removeFileByName, List.filter_append, h]

/-- C4: a descriptor whose `sys.type` is not `ContentType` makes
`appendType` fail with the invalid-descriptor error, and the project is
exactly as it was before the call: a caller that catches the error keeps
its previous module graph, so entities synthesised before or after are
unaffected. -/
theorem claim_C4_invalid_descriptor_leaves_graph_unchanged
    (R : Renderers) (m : CFContentType) (p : Project)
    (h : m.sys.type ≠ "ContentType") :
    appendType R m p = .error .invalidDescriptor ∧ tryAppendType R m p = p := by
  constructor
  · simp [appendType, h]
  · simp [tryAppendType, appendType, h]

theorem claim_C4_witness :
    appendType R0 assetCT [mkSourceFile R0 postCT] = .error .invalidDescriptor ∧
      tryAppendType R0 assetCT [mkSourceFile R0 postCT] = [mkSourceFile R0 postCT] :=
  claim_C4_invalid_descriptor_leaves_graph_unchanged R0 assetCT [mkSourceFile R0 postCT] (by decide)

theorem interfacePropsOf_mkSourceFile (R : Renderers) (m : CFContentType) :
    interfacePropsOf (mkSourceFile R m) = m.fields.map (mkProp R) := by
  simp [interfacePropsOf, mkSourceFile_body, entryBody, List.findSome?]

/-- C6: for every field of a synthesised descriptor, the generated
property of the fields interface carries the question token (is optional)
if and only if the field is omitted or not required. -/
theorem claim_C6_optional_iff_omitted_or_not_required
    (R : Renderers) (m : CFContentType) (i : Nat) (field : Field)
    (hf : m.fields.get? i = some field) :
    ∃ prop : PropertySig,
      (interfacePropsOf (mkSourceFile R m)).get? i = some prop ∧
      prop.name = field.id ∧
      (prop.hasQuestionToken = true ↔ (field.omitted = true ∨ field.required = false)) := by
  refine ⟨mkProp R field, ?_, rfl, ?_⟩
  · rw [interfacePropsOf_mkSourceFile, List.get?_map, hf]
    rfl
  · simp [mkProp, Bool.or_eq_true, Bool.not_eq_true']

theorem claim_C6_witness :
    ∃ prop : PropertySig,
      (interfacePropsOf (mkSourceFile R0 postCT)).get? 0 = some prop ∧
      prop.name = titleField.id ∧
      (prop.hasQuestionToken = true ↔ (titleField.omitted = true ∨ titleField.required = false)) :=
  claim_C6_optional_iff_omitted_or_not_required R0 postCT 0 titleField (by decide)

/-- C7: appending the same valid descriptor twice yields the same project
as appending it once (the overwrite makes synthesis idempotent), and in
particular the module registered under the descriptor's name renders to
byte-for-byte identical text. -/
theorem claim_C7_appendType_idempotent
    (R : Renderers) (m : CFContentType) (p : Project)
    (h : m.sys.type = "ContentType") :
    (appendType R m p).bind (appendType R m) = appendType R m p ∧
    ∀ q q2 : Project, appendType R m p = .ok q → appendType R m q = .ok q2 →
      moduleTextOf (moduleName m.sys.id) q2 = moduleTextOf (moduleName m.sys.id) q := by
  have h1 := appendType_valid R m p h
  have h2 := appendType_valid R m (removeFileByName (moduleName m.sys.id) p ++ [mkSourceFile R m]) h
  have hrm : removeFileByName (moduleName m.sys.id)
      (removeFileByName (moduleName m.sys.id) p ++ [mkSourceFile R m]) =
      removeFileByName (moduleName m.sys.id) p := by
    rw [removeFileByName_append_self _ _ _ (mkSourceFile_name R m), removeFileByName_idem]
  constructor
  · rw [h1]
    simp only [Except.bind]
    rw [h2, hrm]
  · intro q q2 hq hq2
    rw [h1] at hq
    cases hq
    rw [h2, hrm] at hq2
    cases hq2
    rfl

theorem claim_C7_witness :
    (appendType R0 postCT []).bind (appendType R0 postCT) = appendType R0 postCT [] ∧
    ∀ q q2 : Project, appendType R0 postCT [] = .ok q → appendType R0 postCT q = .ok q2 →
      moduleTextOf (moduleName postCT.sys.id) q2 = moduleTextOf (moduleName postCT.sys.id) q :=
  claim_C7_appendType_idempotent R0 postCT [] (by decide)

theorem pascalGo_false_no_dash : ∀ cs : List Char, '-' ∉ cs → pascalGo false cs = cs := by
  intro cs
  induction cs with
  | nil => intro; rfl
  | cons c rest ih =>
    intro h
    have hc : c ≠ '-' := fun hc => h (hc ▸ List.mem_cons_self c rest)
    have hrest : '-' ∉ rest := fun hr => h (List.mem_cons_of_mem c hr)
    simp only [pascalGo, if_neg hc, ih hrest]

theorem dash_not_lower : ∀ c ∈ lowerAlphabet, c ≠ '-' := by decide

theorem toUpper_inj_lower :
    ∀ c1 ∈ lowerAlphabet, ∀ c2 ∈ lowerAlphabet, c1.toUpper = c2.toUpper → c1 = c2 := by decide

theorem toUpper_not_dash : ∀ c ∈ lowerAlphabet, c.toUpper ≠ '-' := by decide

theorem toUpper_idem_lower : ∀ c ∈ lowerAlphabet, c.toUpper.toUpper = c.toUpper := by decide

theorem moduleName_expected (s : String) (c : Char) (cs : List Char)
    (hs : s.data = c :: cs) (hc : c ∈ lowerAlphabet) (hd : '-' ∉ cs) :
    moduleName s = ⟨c.toUpper :: cs⟩ := by
  have hcd : c ≠ '-' := dash_not_lower c hc
  simp only [moduleName, String.toList, hs, pascalGo, if_neg hcd, pascalGo_false_no_dash cs hd]

theorem expectedId_shape (s : String) (h : expectedId s = true) :
    ∃ c cs, s.data = c :: cs ∧ c ∈ lowerAlphabet ∧ '-' ∉ cs := by
  unfold expectedId at h
  rcases hs : s.toList with _ | ⟨c, cs⟩
  · rw [hs] at h; simp at h
  · rw [hs] at h
    simp only [Bool.and_eq_true] at h
    refine ⟨c, cs, hs, ?_, ?_⟩
    · have := h.1
      simpa [List.contains] using this
    · have := h.2
      intro hmem
      simp [List.contains] at this
      exact this.2 hmem

theorem moduleName_inj (s1 s2 : String)
    (h1 : expectedId s1 = true) (h2 : expectedId s2 = true)
    (heq : moduleName s1 = moduleName s2) : s1 = s2 := by
  obtain ⟨c1, cs1, hs1, hc1, hd1⟩ := expectedId_shape s1 h1
  obtain ⟨c2, cs2, hs2, hc2, hd2⟩ := expectedId_shape s2 h2
  rw [moduleName_expected s1 c1 cs1 hs1 hc1 hd1, moduleName_expected s2 c2 cs2 hs2 hc2 hd2] at heq
  have hdata : c1.toUpper :: cs1 = c2.toUpper :: cs2 := congrArg String.data heq
  have hhead : c1.toUpper = c2.toUpper := (List.cons.injEq _ _ _ _ ▸ hdata).1
  have htail : cs1 = cs2 := (List.cons.injEq _ _ _ _ ▸ hdata).2
  have hc : c1 = c2 := toUpper_inj_lower c1 hc1 c2 hc2 hhead
  cases s1; cases s2
  simp only at hs1 hs2
  subst hs1; subst hs2
  rw [hc, htail]

theorem moduleName_idem (s : String) (h : expectedId s = true) :
    moduleName (moduleName s) = moduleName s := by
  obtain ⟨c, cs, hs, hc, hd⟩ := expectedId_shape s h
  rw [moduleName_expected s c cs hs hc hd]
  have hcd : c.toUpper ≠ '-' := toUpper_not_dash c hc
  simp only [moduleName, String.toList, pascalGo, if_neg hcd, pascalGo_false_no_dash cs hd,
    toUpper_idem_lower c hc]

theorem find?_append_of_none {α : Type} (pred : α → Bool) (l1 l2 : List α)
    (h : ∀ x ∈ l1, pred x = false) :
    List.find? pred (l1 ++ l2) = List.find? pred l2 := by
  induction l1 with
  | nil => rfl
  | cons a rest ih =>
    have ha : pred a = false := h a (List.mem_cons_self a rest)
    simp only [List.cons_append, List.find?, ha]
    exact ih fun x hx => h x (List.mem_cons_of_mem a hx)

theorem find?_removed (n : String) (p : Project) (l2 : Project) :
    List.find? (fun f => f.name == n) (removeFileByName n p ++ l2) =
      List.find? (fun f => f.name == n) l2 := by
  apply find?_append_of_none
  intro x hx
  have := (List.mem_filter.mp hx).2
  simpa [bne] using this

theorem moduleOf_tryAppend_self (R : Renderers) (d : CFContentType) (p : Project)
    (h : d.sys.type = "ContentType") :
    moduleOf (keyOf d) (tryAppendType R d p) = some (mkSourceFile R d) := by
  rw [tryAppendType_valid R d p h]
  unfold moduleOf keyOf
  rw [find?_removed]
  simp [List.find?, mkSourceFile_name]

/-- C9: synthesis of one entity never reads or mutates another entity's
module.  For two valid descriptors with distinct identifiers (over the
expected identifier alphabet), the module registered for the first is
`mkSourceFile` of that descriptor alone — the same whether the second
descriptor is absent, appended before, or appended after, and for any
prior state of the project. -/
theorem claim_C9_entity_synthesis_independent
    (R : Renderers) (d1 d2 : CFContentType) (p : Project)
    (h1 : d1.sys.type = "ContentType") (h2 : d2.sys.type = "ContentType")
    (hid : d1.sys.id ≠ d2.sys.id)
    (he1 : expectedId d1.sys.id = true) (he2 : expectedId d2.sys.id = true) :
    moduleOf (keyOf d1) (tryAppendType R d1 p) = some (mkSourceFile R d1) ∧
    moduleOf (keyOf d1) (tryAppendType R d2 (tryAppendType R d1 p)) = some (mkSourceFile R d1) ∧
    moduleOf (keyOf d1) (tryAppendType R d1 (tryAppendType R d2 p)) = some (mkSourceFile R d1) := by
  have hkey : keyOf d1 ≠ keyOf d2 := by
    intro hk
    exact hid (moduleName_inj d1.sys.id d2.sys.id he1 he2 hk)
  refine ⟨moduleOf_tryAppend_self R d1 p h1, ?_, moduleOf_tryAppend_self R d1 _ h1⟩
  rw [tryAppendType_valid R d1 p h1, tryAppendType_valid R d2 _ h2]
  unfold moduleOf keyOf
  rw [removeFileByName_append_other (moduleName d2.sys.id) _ (mkSourceFile R d1)
    (by rw [mkSourceFile_name]; exact hkey)]
  have hcomm : removeFileByName (moduleName d2.sys.id) (removeFileByName (moduleName d1.sys.id) p) =
      removeFileByName (moduleName d1.sys.id) (removeFileByName (moduleName d2.sys.id) p) := by
    unfold removeFileByName
    exact List.filter_comm _ _ p
  rw [hcomm, List.append_assoc, find?_removed]
  simp [List.find?, mkSourceFile_name]

theorem claim_C9_witness :
    moduleOf (keyOf postCT) (tryAppendType R0 postCT []) = some (mkSourceFile R0 postCT) ∧
    moduleOf (keyOf postCT) (tryAppendType R0 authorCT (tryAppendType R0 postCT [])) =
      some (mkSourceFile R0 postCT) ∧
    moduleOf (keyOf postCT) (tryAppendType R0 postCT (tryAppendType R0 authorCT [])) =
      some (mkSourceFile R0 postCT) :=
  claim_C9_entity_synthesis_independent R0 postCT authorCT []
    (by decide) (by decide) (by decide) (by decide) (by decide)

theorem findSome?_append_of_none {α β : Type} (g : α → Option β) (l1 l2 : List α)
    (h : ∀ x ∈ l1, g x = none) :
    List.findSome? g (l1 ++ l2) = List.findSome? g l2 := by
  induction l1 with
  | nil => rfl
  | cons a rest ih =>
    have ha : g a = none := h a (List.mem_cons_self a rest)
    simp only [List.cons_append, List.findSome?, ha]
    exact ih fun x hx => h x (List.mem_cons_of_mem a hx)

theorem indexEntryExports_no_alias (n : String) :
    ∀ d ∈ indexEntryExports n,
      (match d with
        | Decl.typeAlias nm _ t => if nm = "CMSEntries" then some t else none
        | _ => none) = (none : Option String) := by
  intro d hd
  simp only [indexEntryExports, List.mem_cons, List.not_mem_nil, or_false] at hd
  rcases hd with rfl | rfl <;> rfl

theorem entityNames_remove (n : String) (p : Project) :
    entityNames (removeFileByName n p) = (entityNames p).filter (fun x => x != n) := by
  unfold entityNames removeFileByName
  rw [List.filter_comm]
  rw [List.filter_map]
  rfl

theorem cmsEntries_addIndexFile (p : Project) :
    cmsEntriesOf (addIndexFile p) = some (renderUnionType ((entityNames p).map moduleName)) := by
  unfold addIndexFile cmsEntriesOf
  rw [find?_append_of_none _ (removeFileByName "index" p) _ ?hside]
  case hside =>
    intro x hx
    have := (List.mem_filter.mp hx).2
    simpa [bne] using this
  have hname : ((organizeImports (indexSourceFile
      ((removeFileByName "index" p).map (fun f => f.name)))).name == "index") = true := by
    rw [organizeImports_name]
    rfl
  simp only [List.find?, hname]
  rw [organizeImports_body]
  unfold indexSourceFile
  simp only []
  rw [findSome?_append_of_none _ _ _ ?hexp]
  case hexp =>
    intro d hd
    rw [List.mem_flatMap] at hd
    obtain ⟨n, _, hdn⟩ := hd
    exact indexEntryExports_no_alias n d hdn
  simp [List.findSome?, entityNames, removeFileByName]

/-- C1: after the index is rebuilt, the `CMSEntries` alias of the index
module is the union with exactly one member per non-index module of the
graph, in the graph's enumeration (insertion) order — the member for a
module being `moduleName` of its base name, which for an entity module
(registered under `moduleName` of its identifier) is `moduleName` of the
entity, since `moduleName` is idempotent on the expected alphabet.
Removing a module and rebuilding drops its member, leaving no stale
entries. -/
theorem claim_C1_index_completeness (p : Project) (n id : String)
    (hid : expectedId id = true) :
    cmsEntriesOf (addIndexFile p) = some (renderUnionType ((entityNames p).map moduleName)) ∧
    cmsEntriesOf (addIndexFile (removeFileByName n p)) =
      some (renderUnionType (((entityNames p).filter (fun x => x != n)).map moduleName)) ∧
    moduleName (moduleName id) = moduleName id := by
  refine ⟨cmsEntries_addIndexFile p, ?_, moduleName_idem id hid⟩
  rw [cmsEntries_addIndexFile (removeFileByName n p), entityNames_remove]

theorem claim_C1_witness :
    cmsEntriesOf (addIndexFile (buildAll R0 [postCT, authorCT])) =
      some (renderUnionType ((entityNames (buildAll R0 [postCT, authorCT])).map moduleName)) ∧
    cmsEntriesOf (addIndexFile (removeFileByName "Author" (buildAll R0 [postCT, authorCT]))) =
      some (renderUnionType (((entityNames (buildAll R0 [postCT, authorCT])).filter
        (fun x => x != "Author")).map moduleName)) ∧
    moduleName (moduleName "post") = moduleName "post" :=
  claim_C1_index_completeness (buildAll R0 [postCT, authorCT]) "Author" "post" (by decide)

theorem writeNames_eq (p : Project) :
    writeNames p = (entityNames p).map (fun x => x ++ ".ts") ++ ["index.ts"] := by
  simp only [writeNames, writeOutputs, addIndexFile]
  rw [List.map_append, List.map_append]
  have hidx : ([organizeImports (indexSourceFile
      ((removeFileByName "index" p).map (fun f => f.name)))].map (fun f => (f.name ++ ".ts", renderSourceFile f))).map
      (fun x => x.1) = ["index.ts"] := by
    simp [organizeImports_name, indexSourceFile]
  rw [hidx]
  congr 1
  unfold entityNames removeFileByName
  rw [List.map_map, List.map_map]
  rfl

/-- C5 counterexample: the claim says the file written for an entity is
named by the entity's raw identifier (`sys.id`).  For the descriptor with
`sys.id = "post"` the builder writes `Post.ts` (the PascalCase module
name), and no `post.ts` file exists. -/
theorem claim_C5_counterexample :
    ("post.ts" ∈ writeNames (buildAll R0 [postCT])) = False ∧
    ("Post.ts" ∈ writeNames (buildAll R0 [postCT])) = True := by
  constructor <;> simp <;> decide

/-- C5, amended: when writing to disk the output is one file per module of
the graph, the file for an entity synthesised from descriptor `d` being
named `moduleName(d.sys.id).ts` — the PascalCase module name derived from
the raw identifier, not the raw identifier itself — plus `index.ts` with
the aggregated exports; no other file (in particular no merged
`ContentTypes` file) is produced unless the merge mode added such a module
to the graph beforehand. -/
theorem claim_C5_file_layout (R : Renderers) (p : Project) (d : CFContentType)
    (hd : d.sys.type = "ContentType") :
    writeNames p = (entityNames p).map (fun x => x ++ ".ts") ++ ["index.ts"] ∧
    appendType R d p = .ok (removeFileByName (moduleName d.sys.id) p ++ [mkSourceFile R d]) ∧
    (mkSourceFile R d).name = moduleName d.sys.id :=
  ⟨writeNames_eq p, appendType_valid R d p hd, mkSourceFile_name R d⟩

theorem claim_C5_witness :
    writeNames (buildAll R0 [postCT]) =
      (entityNames (buildAll R0 [postCT])).map (fun x => x ++ ".ts") ++ ["index.ts"] ∧
    appendType R0 authorCT (buildAll R0 [postCT]) =
      .ok (removeFileByName (moduleName authorCT.sys.id) (buildAll R0 [postCT]) ++
        [mkSourceFile R0 authorCT]) ∧
    (mkSourceFile R0 authorCT).name = moduleName authorCT.sys.id :=
  claim_C5_file_layout R0 (buildAll R0 [postCT]) authorCT (by decide)

theorem map_keyOf_filter (acc : List CFContentType) (k : String) :
    (acc.filter (fun e => keyOf e != k)).map keyOf = (acc.map keyOf).filter (fun y => y != k) := by
  induction acc with
  | nil => rfl
  | cons e rest ih =>
    by_cases h : keyOf e != k <;> simp [h, ih]

theorem buildAll_go (R : Renderers) :
    ∀ (D : List CFContentType) (acc : List CFContentType),
      (∀ d ∈ D, d.sys.type = "ContentType") →
      D.foldl (fun p d => tryAppendType R d p) (acc.map (mkSourceFile R)) =
        (D.foldl (fun a d => a.filter (fun e => keyOf e != keyOf d) ++ [d]) acc).map
          (mkSourceFile R) := by
  intro D
  induction D with
  | nil => intro acc _; rfl
  | cons d D' ih =>
    intro acc hvalid
    rw [List.foldl_cons, List.foldl_cons]
    rw [tryAppendType_valid R d _ (hvalid d (List.mem_cons_self d D'))]
    have hfil : removeFileByName (moduleName d.sys.id) (acc.map (mkSourceFile R)) =
        (acc.filter (fun e => keyOf e != keyOf d)).map (mkSourceFile R) := by
      unfold removeFileByName
      rw [List.filter_map]
      congr 1
      apply List.filter_congr
      intro e _
      simp only [Function.comp_apply, mkSourceFile_name, keyOf]
    have hmap : (acc.filter (fun e => keyOf e != keyOf d)).map (mkSourceFile R) ++
        [mkSourceFile R d] =
        ((acc.filter (fun e => keyOf e != keyOf d)) ++ [d]).map (mkSourceFile R) := by
      simp
    rw [hfil, hmap]
    exact ih (acc.filter (fun e => keyOf e != keyOf d) ++ [d]) fun x hx =>
      hvalid x (List.mem_cons_of_mem d hx)

theorem buildAll_eq_lastWins (R : Renderers) (D : List CFContentType)
    (hvalid : ∀ d ∈ D, d.sys.type = "ContentType") :
    buildAll R D = (lastWins D).map (mkSourceFile R) := by
  have := buildAll_go R D [] hvalid
  simpa [buildAll, lastWins] using this

theorem mem_lastWins_go :
    ∀ (D acc : List CFContentType) (d : CFContentType),
      d ∈ D.foldl (fun a x => a.filter (fun e => keyOf e != keyOf x) ++ [x]) acc →
      d ∈ acc ∨ d ∈ D := by
  intro D
  induction D with
  | nil => intro acc d h; exact Or.inl h
  | cons x D' ih =>
    intro acc d h
    rw [List.foldl_cons] at h
    rcases ih _ d h with hmem | hmem
    · rcases List.mem_append.mp hmem with hf | hs
      · exact Or.inl (List.mem_filter.mp hf).1
      · have hdx : d = x := List.mem_singleton.mp hs
        subst hdx
        exact Or.inr (List.mem_cons_self _ _)
    · exact Or.inr (List.mem_cons_of_mem x hmem)

theorem mem_lastWins (D : List CFContentType) (d : CFContentType) (h : d ∈ lastWins D) :
    d ∈ D := by
  rcases mem_lastWins_go D [] d h with h0 | h0
  · cases h0
  · exact h0

theorem keys_lastWins_go (y : String) :
    ∀ (D acc : List CFContentType),
      (y ∈ (D.foldl (fun a x => a.filter (fun e => keyOf e != keyOf x) ++ [x]) acc).map keyOf) ↔
        (y ∈ acc.map keyOf ∨ y ∈ D.map keyOf) := by
  intro D
  induction D with
  | nil => intro acc; simp
  | cons x D' ih =>
    intro acc
    rw [List.foldl_cons, ih]
    constructor
    · rintro (h | h)
      · rw [List.map_append, List.mem_append] at h
        rcases h with h | h
        · rw [map_keyOf_filter, List.mem_filter] at h
          exact Or.inl h.1
        · simp only [List.map_cons, List.map_nil, List.mem_singleton] at h
          subst h
          exact Or.inr (by simp)
      · exact Or.inr (by simp [h])
    · rintro (h | h)
      · by_cases hy : y = keyOf x
        · subst hy
          left
          rw [List.map_append, List.mem_append]
          right
          simp
        · left
          rw [List.map_append, List.mem_append]
          left
          rw [map_keyOf_filter, List.mem_filter]
          exact ⟨h, by simpa using hy⟩
      · rw [List.map_cons, List.mem_cons] at h
        rcases h with rfl | h
        · left
          rw [List.map_append, List.mem_append]
          right
          simp
        · exact Or.inr h

theorem keys_lastWins (D : List CFContentType) (y : String) :
    y ∈ (lastWins D).map keyOf ↔ y ∈ D.map keyOf := by
  have := keys_lastWins_go y D []
  simpa [lastWins] using this

theorem nodup_keys_lastWins_go :
    ∀ (D acc : List CFContentType), (acc.map keyOf).Nodup →
      ((D.foldl (fun a x => a.filter (fun e => keyOf e != keyOf x) ++ [x]) acc).map keyOf).Nodup := by
  intro D
  induction D with
  | nil => intro acc h; exact h
  | cons x D' ih =>
    intro acc hacc
    rw [List.foldl_cons]
    apply ih
    rw [List.map_append, map_keyOf_filter, List.nodup_append]
    refine ⟨hacc.filter _, by simp, ?_⟩
    intro y hy hy2
    simp only [List.map_cons, List.map_nil, List.mem_singleton] at hy2
    subst hy2
    have := (List.mem_filter.mp hy).2
    simp at this

theorem nodup_keys_lastWins (D : List CFContentType) : ((lastWins D).map keyOf).Nodup := by
  have := nodup_keys_lastWins_go D [] (by simp)
  simpa [lastWins] using this

theorem mergeChildren_cons (acc : MergeAcc) (c : StructChild) (cs : List StructChild) :
    mergeChildren acc (c :: cs) =
      match mergeChild acc c with
      | .error e => .error e
      | .ok a => mergeChildren a cs := rfl

theorem mergeChildren_append_ok (cs1 cs2 : List StructChild) :
    ∀ (acc acc1 : MergeAcc), mergeChildren acc cs1 = .ok acc1 →
      mergeChildren acc (cs1 ++ cs2) = mergeChildren acc1 cs2 := by
  induction cs1 with
  | nil =>
    intro acc acc1 h
    cases h
    rfl
  | cons c cs ih =>
    intro acc acc1 h
    rw [mergeChildren_cons] at h
    rw [List.cons_append, mergeChildren_cons]
    cases hc : mergeChild acc c with
    | error e => rw [hc] at h; cases h
    | ok a =>
      rw [hc] at h
      exact ih a acc1 h

theorem mergeChildren_imports (il : List ImportDecl) :
    ∀ acc, mergeChildren acc (il.map .importChild) =
      .ok ⟨acc.pending ++ il, acc.types, acc.body⟩ := by
  induction il with
  | nil => intro acc; simp [mergeChildren]
  | cons i rest ih =>
    intro acc
    rw [List.map_cons, mergeChildren_cons]
    simp only [mergeChild]
    rw [ih]
    simp

theorem mergeChildren_decls (bl : List Decl) (hsup : ∀ d ∈ bl, isSupportedDecl d = true) :
    ∀ acc, mergeChildren acc ((bl.filter isStructureDecl).map .declChild) =
      .ok ⟨acc.pending, acc.types ++ bl.filterMap declNameOf, acc.body ++ bl.filter isInlineDecl⟩ := by
  induction bl with
  | nil => intro acc; simp [mergeChildren]
  | cons d rest ih =>
    intro acc
    have hrest : ∀ x ∈ rest, isSupportedDecl x = true := fun x hx =>
      hsup x (List.mem_cons_of_mem d hx)
    cases d with
    | interface n e props =>
      rw [List.filter_cons_of_pos (by rfl), List.map_cons, mergeChildren_cons]
      simp only [mergeChild]
      rw [ih hrest]
      simp [declNameOf, isInlineDecl, List.filter]
    | typeAlias n e t =>
      rw [List.filter_cons_of_pos (by rfl), List.map_cons, mergeChildren_cons]
      simp only [mergeChild]
      rw [ih hrest]
      simp [declNameOf, isInlineDecl, List.filter]
    | statement t =>
      rw [List.filter_cons_of_neg (by simp [isStructureDecl])]
      rw [ih hrest]
      simp [declNameOf, isInlineDecl, List.filter]
    | exportDecl a b c =>
      exact absurd (hsup _ (List.mem_cons_self _ _)) (by simp [isSupportedDecl])
    | other k =>
      exact absurd (hsup _ (List.mem_cons_self _ _)) (by simp [isSupportedDecl])

theorem mergeChildren_file (f : SourceFile) (hsup : supportedFile f = true) (acc : MergeAcc) :
    mergeChildren acc (structureChildren f) =
      .ok ⟨acc.pending ++ f.imports, acc.types ++ declNamesOfFile f, acc.body ++ inlinedDecls f⟩ := by
  unfold structureChildren
  rw [mergeChildren_append_ok _ _ acc ⟨acc.pending ++ f.imports, acc.types, acc.body⟩
    (mergeChildren_imports f.imports acc)]
  exact mergeChildren_decls f.body (by simpa [supportedFile, List.all_eq_true] using hsup) _

theorem mergeWalk_cons (acc : MergeAcc) (f : SourceFile) (fs : List SourceFile) :
    mergeWalk acc (f :: fs) =
      match mergeChildren acc (structureChildren f) with
      | .error e => .error e
      | .ok a => mergeWalk a fs := rfl

theorem mergeWalk_supported (fs : List SourceFile) (hsup : ∀ f ∈ fs, supportedFile f = true) :
    ∀ acc, mergeWalk acc fs =
      .ok ⟨acc.pending ++ fs.flatMap (fun f => f.imports),
           acc.types ++ fs.flatMap declNamesOfFile,
           acc.body ++ fs.flatMap inlinedDecls⟩ := by
  induction fs with
  | nil => intro acc; simp [mergeWalk]
  | cons f rest ih =>
    intro acc
    rw [mergeWalk_cons, mergeChildren_file f (hsup f (List.mem_cons_self f rest))]
    have h2 := ih (fun x hx => hsup x (List.mem_cons_of_mem f hx))
      ⟨acc.pending ++ f.imports, acc.types ++ declNamesOfFile f, acc.body ++ inlinedDecls f⟩
    exact h2.trans (by simp)

theorem supportedFile_mkSourceFile (R : Renderers) (d : CFContentType) :
    supportedFile (mkSourceFile R d) = true := by
  simp [supportedFile, mkSourceFile_body, entryBody, isSupportedDecl]

theorem declNamesOfFile_mkSourceFile (R : Renderers) (d : CFContentType) :
    declNamesOfFile (mkSourceFile R d) = [keyOf d ++ "Fields", keyOf d] := by
  simp only [declNamesOfFile, mkSourceFile_body, entryBody]
  rfl

theorem filterMap_declNameOf_inline (bl : List Decl) :
    (bl.filter isInlineDecl).filterMap declNameOf = bl.filterMap declNameOf := by
  induction bl with
  | nil => rfl
  | cons d rest ih =>
    cases d <;> simp [isInlineDecl, declNameOf, List.filter, ih]

theorem filterMap_flatMap_files (fs : List SourceFile) :
    (fs.flatMap inlinedDecls).filterMap declNameOf = fs.flatMap declNamesOfFile := by
  induction fs with
  | nil => rfl
  | cons f rest ih =>
    rw [List.flatMap_cons, List.flatMap_cons, List.filterMap_append, ih]
    congr 1
    exact filterMap_declNameOf_inline f.body

theorem str_append_cancel (a b c : String) (h : a ++ c = b ++ c) : a = b := by
  obtain ⟨l1⟩ := a
  obtain ⟨l2⟩ := b
  have hd : l1 ++ c.data = l2 ++ c.data := congrArg String.data h
  exact congrArg String.mk (List.append_cancel_right hd)

theorem str_append_fields_ne (a : String) : a ++ "Fields" ≠ a := by
  intro h
  have := congrArg (fun s : String => s.data.length) h
  simp [String.data_append] at this

theorem nodup_namesOfKeys :
    ∀ L : List String, L.Nodup → (∀ k1 ∈ L, ∀ k2 ∈ L, k1 ++ "Fields" ≠ k2) →
      (L.flatMap fun k => [k ++ "Fields", k]).Nodup := by
  intro L
  induction L with
  | nil => intro _ _; simp
  | cons k L' ih =>
    intro hnd hcross
    have hk : k ∉ L' := (List.nodup_cons.mp hnd).1
    have hnd' : L'.Nodup := (List.nodup_cons.mp hnd).2
    have hcross' : ∀ k1 ∈ L', ∀ k2 ∈ L', k1 ++ "Fields" ≠ k2 := fun k1 h1 k2 h2 =>
      hcross k1 (List.mem_cons_of_mem k h1) k2 (List.mem_cons_of_mem k h2)
    rw [List.flatMap_cons, List.nodup_append]
    refine ⟨by simp [str_append_fields_ne k], ih hnd' hcross', ?_⟩
    intro x hx hx2
    rw [List.mem_flatMap] at hx2
    obtain ⟨q, hq, hxq⟩ := hx2
    have hx' : x = k ++ "Fields" ∨ x = k := by simpa using hx
    have hxq' : x = q ++ "Fields" ∨ x = q := by simpa using hxq
    rcases hx' with h1 | h1 <;> rcases hxq' with h2 | h2
    · have hkq : k = q := str_append_cancel k q "Fields" (h1.symm.trans h2)
      exact hk (hkq ▸ hq)
    · exact hcross k (List.mem_cons_self k L') q (List.mem_cons_of_mem k hq) (h1.symm.trans h2)
    · exact hcross q (List.mem_cons_of_mem k hq) k (List.mem_cons_self k L') (h2.symm.trans h1)
    · have hkq : k = q := h1.symm.trans h2
      exact hk (hkq ▸ hq)

theorem mergeModule_of_walk_ok (mergeFileName : String) (p : Project) (acc : MergeAcc)
    (h : mergeWalk ⟨[], [], []⟩ (p.filter fun f => f.name != mergeFileName) = .ok acc) :
    mergeModule mergeFileName p =
      .ok (organizeImports ⟨mergeFileName,
        acc.pending.filter fun i => !(acc.types.contains (i.moduleSpecifier.drop 2)),
        acc.body⟩) := by
  unfold mergeModule
  rw [h]

/-- C3 counterexample: the claim quantifies over every list of valid
descriptors.  (a) For `D = [post, postFields]` the merged module's
declaration names are `PostFields, Post, PostFieldsFields, PostFields` —
the entry alias of `postFields` collides with the fields interface of
`post`, so the merged module has a duplicate name.  (b) For
`D = [contentTypes]` the descriptor's module is registered under the merge
module's own name, is excluded from the walk, and the merged module is
empty instead of containing that descriptor's two declaration names. -/
theorem claim_C3_counterexample :
    ((mergeModule "ContentTypes" (buildAll R0 [postCT, postFieldsCT])).map declNamesOfFile =
      .ok ["PostFields", "Post", "PostFieldsFields", "PostFields"] ∧
      ¬ (["PostFields", "Post", "PostFieldsFields", "PostFields"] : List String).Nodup) ∧
    ((mergeModule "ContentTypes" (buildAll R0 [contentTypesCT])).map declNamesOfFile =
      .ok [] ∧
      declNamesOfFile (mkSourceFile R0 contentTypesCT) = ["ContentTypesFields", "ContentTypes"]) := by
  refine ⟨⟨?_, by decide⟩, ⟨?_, ?_⟩⟩ <;> rfl

/-- C3, amended: for every list of valid descriptors none of whose module
names is the merge module's own name (`ContentTypes`) and no two of which
derive colliding names (no descriptor's fields-interface name equals
another's entry-type name), the merged module contains exactly the union
of the interface and type-alias declaration names produced by synthesising
each descriptor individually, with no duplicate names. -/
theorem declNames_mergeModule (mergeFileName : String) (p : Project) (acc : MergeAcc)
    (h : mergeWalk ⟨[], [], []⟩ (p.filter fun f => f.name != mergeFileName) = .ok acc) :
    (mergeModule mergeFileName p).map declNamesOfFile = .ok (acc.body.filterMap declNameOf) := by
  rw [mergeModule_of_walk_ok mergeFileName p acc h]
  simp only [Except.map]
  unfold declNamesOfFile
  rw [organizeImports_body]

theorem claim_C3_merge_roundtrip (R : Renderers) (D : List CFContentType)
    (hvalid : ∀ d ∈ D, d.sys.type = "ContentType")
    (hct : ∀ d ∈ D, keyOf d ≠ "ContentTypes")
    (hcross : ∀ d1 ∈ D, ∀ d2 ∈ D, moduleFieldsName d1.sys.id ≠ moduleName d2.sys.id) :
    ∃ M : SourceFile, mergeModule "ContentTypes" (buildAll R D) = .ok M ∧
      (∀ x : String, x ∈ declNamesOfFile M ↔ ∃ d ∈ D, x ∈ declNamesOfFile (mkSourceFile R d)) ∧
      (declNamesOfFile M).Nodup := by
  rw [buildAll_eq_lastWins R D hvalid]
  have hfil : ((lastWins D).map (mkSourceFile R)).filter (fun f => f.name != "ContentTypes") =
      (lastWins D).map (mkSourceFile R) := by
    rw [List.filter_eq_self]
    intro f hf
    rw [List.mem_map] at hf
    obtain ⟨d, hd, rfl⟩ := hf
    have := hct d (mem_lastWins D d hd)
    simpa [mkSourceFile_name, keyOf] using this
  have hsup : ∀ f ∈ (lastWins D).map (mkSourceFile R), supportedFile f = true := by
    intro f hf
    rw [List.mem_map] at hf
    obtain ⟨d, _, rfl⟩ := hf
    exact supportedFile_mkSourceFile R d
  have hwalk : mergeWalk ⟨[], [], []⟩
      (((lastWins D).map (mkSourceFile R)).filter fun f => f.name != "ContentTypes") =
      .ok ⟨[] ++ ((lastWins D).map (mkSourceFile R)).flatMap (fun f => f.imports),
           [] ++ ((lastWins D).map (mkSourceFile R)).flatMap declNamesOfFile,
           [] ++ ((lastWins D).map (mkSourceFile R)).flatMap inlinedDecls⟩ := by
    rw [hfil]
    exact mergeWalk_supported _ hsup _
  have hDN := declNames_mergeModule "ContentTypes" ((lastWins D).map (mkSourceFile R)) _ hwalk
  cases hcase : mergeModule "ContentTypes" ((lastWins D).map (mkSourceFile R)) with
  | error e =>
    rw [hcase] at hDN
    cases hDN
  | ok M =>
    rw [hcase] at hDN
    simp only [Except.map, Except.ok.injEq] at hDN
    have hM : declNamesOfFile M = (lastWins D).flatMap (fun d => [keyOf d ++ "Fields", keyOf d]) := by
      rw [hDN]
      simp only [List.nil_append]
      rw [filterMap_flatMap_files, List.flatMap_map]
      simp only [declNamesOfFile_mkSourceFile]
    refine ⟨M, rfl, ?_, ?_⟩
    · intro x
      rw [hM, List.mem_flatMap]
      constructor
      · rintro ⟨d, hd, hx⟩
        refine ⟨d, mem_lastWins D d hd, ?_⟩
        rw [declNamesOfFile_mkSourceFile]
        exact hx
      · rintro ⟨d, hd, hx⟩
        rw [declNamesOfFile_mkSourceFile] at hx
        have hkey : keyOf d ∈ (lastWins D).map keyOf :=
          (keys_lastWins D (keyOf d)).mpr (List.mem_map_of_mem keyOf hd)
        rw [List.mem_map] at hkey
        obtain ⟨d', hd', hk⟩ := hkey
        refine ⟨d', hd', ?_⟩
        rw [hk]
        exact hx
    · rw [hM]
      have hflat : (lastWins D).flatMap (fun d => [keyOf d ++ "Fields", keyOf d]) =
          ((lastWins D).map keyOf).flatMap (fun k => [k ++ "Fields", k]) := by
        rw [List.flatMap_map]
      rw [hflat]
      apply nodup_namesOfKeys _ (nodup_keys_lastWins D)
      intro k1 h1 k2 h2
      rw [List.mem_map] at h1 h2
      obtain ⟨d1, hd1, rfl⟩ := h1
      obtain ⟨d2, hd2, rfl⟩ := h2
      exact hcross d1 (mem_lastWins D d1 hd1) d2 (mem_lastWins D d2 hd2)

theorem claim_C3_witness :
    ∃ M : SourceFile, mergeModule "ContentTypes" (buildAll R0 [postCT, authorCT]) = .ok M ∧
      (∀ x : String, x ∈ declNamesOfFile M ↔
        ∃ d ∈ [postCT, authorCT], x ∈ declNamesOfFile (mkSourceFile R0 d)) ∧
      (declNamesOfFile M).Nodup :=
  claim_C3_merge_roundtrip R0 [postCT, authorCT] (by decide) (by decide) (by decide)

theorem mem_insertLe {α : Type} (le : α → α → Bool) (a x : α) :
    ∀ l : List α, x ∈ insertLe le a l ↔ x = a ∨ x ∈ l := by
  intro l
  induction l with
  | nil => simp [insertLe]
  | cons b bs ih =>
    unfold insertLe
    by_cases h : le a b = true
    · simp [h]
    · simp only [Bool.not_eq_true] at h
      simp only [h, Bool.false_eq_true, if_false, List.mem_cons, ih]
      tauto

theorem mem_sortLe {α : Type} (le : α → α → Bool) (x : α) :
    ∀ l : List α, x ∈ sortLe le l ↔ x ∈ l := by
  intro l
  induction l with
  | nil => simp [sortLe]
  | cons b bs ih =>
    unfold sortLe
    rw [mem_insertLe, ih, List.mem_cons]

theorem pruneImport_spec (t : String) (i j : ImportDecl) (h : pruneImport t i = some j) :
    j.moduleSpecifier = i.moduleSpecifier := by
  simp only [pruneImport] at h
  split at h
  · cases h
  · cases h
    rfl

theorem mergeImportInto_spec (acc : List ImportDecl) (i j : ImportDecl)
    (h : j ∈ mergeImportInto acc i) :
    (∃ k ∈ acc, k.moduleSpecifier = j.moduleSpecifier) ∨ j.moduleSpecifier = i.moduleSpecifier := by
  unfold mergeImportInto at h
  split at h
  · rw [List.mem_map] at h
    obtain ⟨k, hk, hkj⟩ := h
    left
    refine ⟨k, hk, ?_⟩
    subst hkj
    split <;> rfl
  · rcases List.mem_append.mp h with hk | hk
    · exact Or.inl ⟨j, hk, rfl⟩
    · right
      rw [List.mem_singleton.mp hk]

theorem mergeDupImports_spec :
    ∀ (l acc : List ImportDecl) (j : ImportDecl), j ∈ l.foldl mergeImportInto acc →
      (∃ k ∈ acc, k.moduleSpecifier = j.moduleSpecifier) ∨
        ∃ i ∈ l, i.moduleSpecifier = j.moduleSpecifier := by
  intro l
  induction l with
  | nil => intro acc j h; exact Or.inl ⟨j, h, rfl⟩
  | cons i rest ih =>
    intro acc j h
    rw [List.foldl_cons] at h
    rcases ih _ j h with hacc | hrest
    · obtain ⟨k, hk, hks⟩ := hacc
      rcases mergeImportInto_spec acc i k hk with ⟨k0, hk0, hk0s⟩ | hks2
      · exact Or.inl ⟨k0, hk0, hk0s.trans hks⟩
      · exact Or.inr ⟨i, List.mem_cons_self i rest, hks2.symm.trans hks⟩
    · obtain ⟨i0, hi0, hi0s⟩ := hrest
      exact Or.inr ⟨i0, List.mem_cons_of_mem i hi0, hi0s⟩

theorem organizeImports_spec (f : SourceFile) (j : ImportDecl)
    (h : j ∈ (organizeImports f).imports) :
    ∃ i ∈ f.imports, i.moduleSpecifier = j.moduleSpecifier := by
  unfold organizeImports at h
  simp only at h
  rw [mem_sortLe] at h
  rw [List.mem_filterMap] at h
  obtain ⟨j0, hj0, hprune⟩ := h
  rcases mergeDupImports_spec f.imports [] j0 hj0 with ⟨k, hk, _⟩ | ⟨i, hi, his⟩
  · cases hk
  · exact ⟨i, hi, his.trans (pruneImport_spec _ _ _ hprune).symm⟩

theorem filterMap_childImport (f : SourceFile) :
    (structureChildren f).filterMap childImportOf = f.imports := by
  unfold structureChildren
  rw [List.filterMap_append]
  have h1 : (f.imports.map StructChild.importChild).filterMap childImportOf = f.imports := by
    induction f.imports with
    | nil => rfl
    | cons i rest ih => simp [childImportOf, ih]
  have h2 : (((f.body.filter isStructureDecl).map StructChild.declChild).filterMap
      childImportOf) = [] := by
    induction (f.body.filter isStructureDecl) with
    | nil => rfl
    | cons d rest ih => simp [childImportOf, ih]
  rw [h1, h2, List.append_nil]

theorem filterMap_declNameOf_structure (bl : List Decl) :
    (bl.filter isStructureDecl).filterMap declNameOf = bl.filterMap declNameOf := by
  induction bl with
  | nil => rfl
  | cons d rest ih =>
    cases d <;> simp [isStructureDecl, declNameOf, List.filter, ih]

theorem filterMap_childName (f : SourceFile) :
    (structureChildren f).filterMap childNameOf = declNamesOfFile f := by
  unfold structureChildren
  rw [List.filterMap_append]
  have h1 : (f.imports.map StructChild.importChild).filterMap childNameOf = [] := by
    induction f.imports with
    | nil => rfl
    | cons i rest ih => simp [childNameOf, ih]
  have h2 : ∀ bl : List Decl,
      (bl.map StructChild.declChild).filterMap childNameOf = bl.filterMap declNameOf := by
    intro bl
    induction bl with
    | nil => rfl
    | cons d rest ih => cases d <;> simp [childNameOf, declNameOf, ih]
  rw [h1, h2, List.nil_append, filterMap_declNameOf_structure]
  rfl

theorem mergeChildren_ok_proj :
    ∀ (cs : List StructChild) (acc acc2 : MergeAcc), mergeChildren acc cs = .ok acc2 →
      acc2.pending = acc.pending ++ cs.filterMap childImportOf ∧
      acc2.types = acc.types ++ cs.filterMap childNameOf := by
  intro cs
  induction cs with
  | nil =>
    intro acc acc2 h
    cases h
    simp
  | cons c rest ih =>
    intro acc acc2 h
    rw [mergeChildren_cons] at h
    cases hc : mergeChild acc c with
    | error e => rw [hc] at h; cases h
    | ok a =>
      rw [hc] at h
      obtain ⟨hp, ht⟩ := ih a acc2 h
      cases c with
      | importChild i =>
        cases hc
        constructor
        · rw [hp]
          simp [childImportOf]
        · rw [ht]
          simp [childNameOf]
      | declChild d =>
        cases d with
        | interface n e props =>
          cases hc
          constructor
          · rw [hp]
            simp [childImportOf]
          · rw [ht]
            simp [childNameOf, declNameOf]
        | typeAlias n e t =>
          cases hc
          constructor
          · rw [hp]
            simp [childImportOf]
          · rw [ht]
            simp [childNameOf, declNameOf]
        | statement t => cases hc
        | exportDecl a2 b2 c2 => cases hc
        | other k => cases hc

theorem mergeWalk_ok_proj :
    ∀ (fs : List SourceFile) (acc acc2 : MergeAcc), mergeWalk acc fs = .ok acc2 →
      acc2.pending = acc.pending ++ fs.flatMap (fun f => f.imports) ∧
      acc2.types = acc.types ++ fs.flatMap declNamesOfFile := by
  intro fs
  induction fs with
  | nil =>
    intro acc acc2 h
    cases h
    simp
  | cons f rest ih =>
    intro acc acc2 h
    rw [mergeWalk_cons] at h
    cases hc : mergeChildren acc (structureChildren f) with
    | error e => rw [hc] at h; cases h
    | ok a =>
      rw [hc] at h
      obtain ⟨hp, ht⟩ := ih a acc2 h
      obtain ⟨hp1, ht1⟩ := mergeChildren_ok_proj _ acc a hc
      rw [filterMap_childImport] at hp1
      rw [filterMap_childName] at ht1
      constructor
      · rw [hp, hp1]
        simp [List.flatMap_cons, List.append_assoc]
      · rw [ht, ht1]
        simp [List.flatMap_cons, List.append_assoc]

/-- C2: if a merged module A carries an import whose specifier, stripped
of its first two characters (the `./` marker), names an interface or type
alias defined by a merged module B, then the module the merge returns
contains no import with that specifier; and every pending import
requirement whose stripped specifier names no inlined declaration is added
to the merged module (shown on the merged module before its final import
normalisation pass). -/
theorem claim_C2_merge_self_import_elimination
    (p : Project) (mergeName : String) (M : SourceFile)
    (hok : mergeModule mergeName p = .ok M)
    (A : SourceFile) (hA : A ∈ p) (hAn : A.name ≠ mergeName)
    (i : ImportDecl) (hi : i ∈ A.imports)
    (B : SourceFile) (hB : B ∈ p) (hBn : B.name ≠ mergeName)
    (hdef : i.moduleSpecifier.drop 2 ∈ declNamesOfFile B) :
    (∀ j ∈ M.imports, j.moduleSpecifier ≠ i.moduleSpecifier) ∧
    ∃ Mraw : SourceFile, mergeModuleRaw mergeName p = .ok Mraw ∧
      ∀ i' ∈ pendingImportsOf mergeName p,
        i'.moduleSpecifier.drop 2 ∉ inlinedNamesOf mergeName p → i' ∈ Mraw.imports := by
  unfold mergeModule at hok
  cases hw : mergeWalk ⟨[], [], []⟩ (p.filter fun f => f.name != mergeName) with
  | error e => rw [hw] at hok; cases hok
  | ok acc =>
    rw [hw] at hok
    cases hok
    obtain ⟨hpend, htypes⟩ := mergeWalk_ok_proj _ _ _ hw
    simp only [List.nil_append] at hpend htypes
    have hBin : B ∈ p.filter (fun f => f.name != mergeName) :=
      List.mem_filter.mpr ⟨hB, by simpa [bne] using hBn⟩
    have htypesmem : i.moduleSpecifier.drop 2 ∈ acc.types := by
      rw [htypes]
      exact List.mem_flatMap.mpr ⟨B, hBin, hdef⟩
    constructor
    · intro j hj heq
      obtain ⟨j0, hj0, hj0s⟩ := organizeImports_spec _ j hj
      have hcond := (List.mem_filter.mp hj0).2
      have hspec : j0.moduleSpecifier = i.moduleSpecifier := hj0s.trans heq
      have hmem2 : acc.types.contains (j0.moduleSpecifier.drop 2) = true := by
        rw [hspec]
        exact List.elem_iff.mpr htypesmem
      rw [hmem2] at hcond
      simp at hcond
    · refine ⟨⟨mergeName,
        acc.pending.filter fun i2 => !(acc.types.contains (i2.moduleSpecifier.drop 2)),
        acc.body⟩, ?_, ?_⟩
      · unfold mergeModuleRaw
        rw [hw]
      · intro i' hi' hnotin
        have hp' : i' ∈ acc.pending := by
          rw [hpend]
          simpa [pendingImportsOf] using hi'
        refine List.mem_filter.mpr ⟨hp', ?_⟩
        have hnm : ¬ (i'.moduleSpecifier.drop 2 ∈ acc.types) := by
          rw [htypes]
          simpa [inlinedNamesOf] using hnotin
        have hfalse : acc.types.contains (i'.moduleSpecifier.drop 2) = false := by
          simpa [List.contains] using hnm
        rw [hfalse]
        rfl

theorem claim_C2_witness :
    (∀ j ∈ demoMergedPairModule.imports,
      j.moduleSpecifier ≠ (⟨"./Beta", none, ["Beta"], false⟩ : ImportDecl).moduleSpecifier) ∧
    ∃ Mraw : SourceFile, mergeModuleRaw "ContentTypes" [alphaFile, betaFile] = .ok Mraw ∧
      ∀ i' ∈ pendingImportsOf "ContentTypes" [alphaFile, betaFile],
        i'.moduleSpecifier.drop 2 ∉ inlinedNamesOf "ContentTypes" [alphaFile, betaFile] →
          i' ∈ Mraw.imports :=
  claim_C2_merge_self_import_elimination [alphaFile, betaFile] "ContentTypes"
    demoMergedPairModule rfl
    alphaFile (by decide) (by decide)
    ⟨"./Beta", none, ["Beta"], false⟩ (by decide)
    betaFile (by decide) (by decide) (by decide)

theorem mergeChild_bad_err (acc : MergeAcc) (c : StructChild)
    (hbad : supportedChild c = false) :
    ∃ k, mergeChild acc c = .error (.unsupportedKind k) := by
  cases c with
  | importChild i => cases hbad
  | declChild d =>
    cases d with
    | interface n e props => cases hbad
    | typeAlias n e t => cases hbad
    | statement t => exact ⟨"Statement", rfl⟩
    | exportDecl a b c2 => exact ⟨"ExportDeclaration", rfl⟩
    | other k => exact ⟨k, rfl⟩

theorem mergeChild_error_shape (acc : MergeAcc) (c : StructChild) (e : BuildError)
    (h : mergeChild acc c = .error e) : ∃ k, e = .unsupportedKind k := by
  cases c with
  | importChild i => cases h
  | declChild d =>
    cases d with
    | interface n e2 props => cases h
    | typeAlias n e2 t => cases h
    | statement t => cases h; exact ⟨"Statement", rfl⟩
    | exportDecl a b c2 => cases h; exact ⟨"ExportDeclaration", rfl⟩
    | other k => cases h; exact ⟨k, rfl⟩

theorem mergeChildren_error_shape :
    ∀ (cs : List StructChild) (acc : MergeAcc) (e : BuildError),
      mergeChildren acc cs = .error e → ∃ k, e = .unsupportedKind k := by
  intro cs
  induction cs with
  | nil => intro acc e h; cases h
  | cons c rest ih =>
    intro acc e h
    rw [mergeChildren_cons] at h
    cases hc : mergeChild acc c with
    | error e2 =>
      rw [hc] at h
      cases h
      exact mergeChild_error_shape acc c e hc
    | ok a =>
      rw [hc] at h
      exact ih a e h

theorem mergeChildren_bad (c : StructChild) (hbad : supportedChild c = false) :
    ∀ (cs : List StructChild) (acc : MergeAcc), c ∈ cs →
      ∃ k, mergeChildren acc cs = .error (.unsupportedKind k) := by
  intro cs
  induction cs with
  | nil => intro acc h; cases h
  | cons c2 rest ih =>
    intro acc hmem
    rcases List.mem_cons.mp hmem with rfl | hmem2
    · obtain ⟨k, hk⟩ := mergeChild_bad_err acc c hbad
      rw [mergeChildren_cons, hk]
      exact ⟨k, rfl⟩
    · cases hc : mergeChild acc c2 with
      | error e =>
        obtain ⟨k, hk⟩ := mergeChild_error_shape acc c2 e hc
        rw [mergeChildren_cons, hc, hk]
        exact ⟨k, rfl⟩
      | ok a =>
        obtain ⟨k, hk⟩ := ih a hmem2
        rw [mergeChildren_cons, hc]
        exact ⟨k, hk⟩

theorem mergeWalk_bad (f : SourceFile) (c : StructChild)
    (hc : c ∈ structureChildren f) (hbad : supportedChild c = false) :
    ∀ (fs : List SourceFile) (acc : MergeAcc), f ∈ fs →
      ∃ k, mergeWalk acc fs = .error (.unsupportedKind k) := by
  intro fs
  induction fs with
  | nil => intro acc h; cases h
  | cons f2 rest ih =>
    intro acc hmem
    rcases List.mem_cons.mp hmem with rfl | hmem2
    · obtain ⟨k, hk⟩ := mergeChildren_bad c hbad (structureChildren f) acc hc
      rw [mergeWalk_cons, hk]
      exact ⟨k, rfl⟩
    · cases hch : mergeChildren acc (structureChildren f2) with
      | error e =>
        obtain ⟨k, hk⟩ := mergeChildren_error_shape _ acc e hch
        rw [mergeWalk_cons, hch, hk]
        exact ⟨k, rfl⟩
      | ok a =>
        obtain ⟨k, hk⟩ := ih a hmem2
        rw [mergeWalk_cons, hch]
        exact ⟨k, hk⟩

/-- C8: if any top-level structure of any module the merge walks (any
module other than the merge module itself) has a kind other than import
declaration, interface, or type alias, the merge fails with the
unsupported-declaration-kind error and returns no merged module at all —
the operation is fatal, with no partial result. -/
theorem claim_C8_unsupported_kind_fatal
    (p : Project) (mergeName : String) (f : SourceFile)
    (hf : f ∈ p) (hn : f.name ≠ mergeName)
    (c : StructChild) (hc : c ∈ structureChildren f) (hbad : supportedChild c = false) :
    ∃ k, mergeModule mergeName p = .error (.unsupportedKind k) ∧
      ∀ M : SourceFile, mergeModule mergeName p ≠ .ok M := by
  have hfin : f ∈ p.filter (fun f2 => f2.name != mergeName) :=
    List.mem_filter.mpr ⟨hf, by simpa [bne] using hn⟩
  obtain ⟨k, hk⟩ := mergeWalk_bad f c hc hbad _ ⟨[], [], []⟩ hfin
  refine ⟨k, ?_, ?_⟩
  · unfold mergeModule
    rw [hk]
  · intro M hM
    unfold mergeModule at hM
    rw [hk] at hM
    cases hM

theorem claim_C8_witness :
    ∃ k, mergeModule "ContentTypes"
        [⟨"bad", [], [.exportDecl true ["X"] none]⟩] = .error (.unsupportedKind k) ∧
      ∀ M : SourceFile, mergeModule "ContentTypes"
        [⟨"bad", [], [.exportDecl true ["X"] none]⟩] ≠ .ok M :=
  claim_C8_unsupported_kind_fatal [⟨"bad", [], [.exportDecl true ["X"] none]⟩] "ContentTypes"
    ⟨"bad", [], [.exportDecl true ["X"] none]⟩ (by decide) (by decide)
    (.declChild (.exportDecl true ["X"] none)) (by decide) (by decide)

theorem mergeModule_ok_name (mergeName : String) (p : Project) (M : SourceFile)
    (h : mergeModule mergeName p = .ok M) : M.name = mergeName := by
  unfold mergeModule at h
  cases hw : mergeWalk ⟨[], [], []⟩ (p.filter fun f => f.name != mergeName) with
  | error e => rw [hw] at h; cases h
  | ok acc =>
    rw [hw] at h
    cases h
    rfl

/-- C10: `toString` mutates the shared module graph.  On success it
registers the merged `ContentTypes` module in the project, so on the state
it returns, `ContentTypes` is enumerated as an entity: a subsequent
`write` emits `ContentTypes.ts` as its own file, and the rebuilt index's
`CMSEntries` union — one member `moduleName` of each non-index module —
gains a `ContentTypes` member. -/
theorem claim_C10_toString_mutates_graph (p p' : Project) (s : String)
    (h : toStringB p = .ok (s, p')) :
    "ContentTypes" ∈ entityNames p' ∧
    "ContentTypes" ++ ".ts" ∈ writeNames p' ∧
    cmsEntriesOf (addIndexFile p') = some (renderUnionType ((entityNames p').map moduleName)) ∧
    "ContentTypes" ∈ (entityNames p').map moduleName := by
  unfold toStringB at h
  cases hm : mergeModule "ContentTypes" p with
  | error e => rw [hm] at h; cases h
  | ok m =>
    rw [hm] at h
    cases h
    have hname : m.name = "ContentTypes" := mergeModule_ok_name "ContentTypes" p m hm
    have hmem : "ContentTypes" ∈ entityNames (removeFileByName "ContentTypes" p ++ [m]) := by
      unfold entityNames
      rw [List.filter_append, List.map_append]
      apply List.mem_append.mpr
      right
      simp [hname]
    refine ⟨hmem, ?_, cmsEntries_addIndexFile _, ?_⟩
    · rw [writeNames_eq]
      exact List.mem_append.mpr (Or.inl (List.mem_map_of_mem _ hmem))
    · have hCT : moduleName "ContentTypes" = "ContentTypes" := rfl
      have h2 := List.mem_map_of_mem moduleName hmem
      rw [hCT] at h2
      exact h2

theorem claim_C10_witness :
    "ContentTypes" ∈ entityNames demoMergedProject ∧
    "ContentTypes" ++ ".ts" ∈ writeNames demoMergedProject ∧
    cmsEntriesOf (addIndexFile demoMergedProject) =
      some (renderUnionType ((entityNames demoMergedProject).map moduleName)) ∧
    "ContentTypes" ∈ (entityNames demoMergedProject).map moduleName :=
  claim_C10_toString_mutates_graph (buildAll R0 [postCT]) demoMergedProject demoMergedText rfl

end CFBuilder
